import Mathlib

/-!
Verification of `tracing-layer-dispatch` (`src/src/lib.rs`).

The crate defines `DispatchLayer<S>`, a `tracing_subscriber::Layer` that owns an
ordered `Vec` of boxed member layers ("observer groups") and

* aggregates `register_callsite` answers with a fold whose combining step
  realises the maximum under `Never < Sometimes < Always`,
* aggregates `enabled` answers with the short-circuiting `Iterator::any`,
* broadcasts the eight lifecycle callbacks to every member in insertion order
  via `for_each`, handing each member a fresh `ctx.clone()`.

Shallow embedding: a member layer is opaque to the dispatcher, so we model it
as a record of functions.  Because a boxed layer may carry internal state and
perform side effects, every method threads an explicit world `W`:
`register_callsite` and `enabled` return a new world together with their
answer, and the lifecycle callbacks are world transformers.  The dispatcher's
methods are then direct translations of the Rust bodies, with Rust's
left-to-right evaluation of `fold` / `any` / `for_each` made explicit by
structural recursion (`registerAux`, `enabledAux`) and `List.foldl`.

Type parameters: `M` callsite metadata, `C` context handle, `A` span
attributes, `E` event, `I` span id, `R` record values, `W` the world of a
member layer's side effects.  All of these are opaque host types in the Rust
source, so they stay abstract here; `ctx.clone()` and `id.clone()` duplicate
pure handles, hence cloning is the identity on the modelled value.
-/

namespace TracingDispatch

/-- `tracing::subscriber::Interest`: the three-valued interest level,
ordered `never < sometimes < always`. -/
inductive Interest where
  | never
  | sometimes
  | always
deriving DecidableEq, Repr

/-- `Interest::is_always`. -/
def Interest.is_always : Interest → Bool
  | .always => true
  | _ => false

/-- `Interest::is_sometimes`. -/
def Interest.is_sometimes : Interest → Bool
  | .sometimes => true
  | _ => false

/-- Rank of an interest level in the total order `never < sometimes < always`. -/
def Interest.toNat : Interest → Nat
  | .never => 0
  | .sometimes => 1
  | .always => 2

/-- Maximum of two interest levels under `never < sometimes < always`. -/
def Interest.max (a b : Interest) : Interest :=
  if a.toNat ≤ b.toNat then b else a

/-- Maximum of a list of interest levels (`never` for the empty list). -/
def Interest.listMax (l : List Interest) : Interest :=
  l.foldl Interest.max Interest.never

/-- The combining step of `register_callsite`'s fold in `src/src/lib.rs`
(lines 37-45), verbatim: `overall` is the accumulator, `particular` the
freshly queried member answer. -/
def combine (overall particular : Interest) : Interest :=
  if particular.is_always then particular
  else if particular.is_sometimes && !overall.is_always then particular
  else overall

variable {M C A E I R W : Type}

/-- One member layer (`Box<dyn Layer<S> + Send + Sync>`), opaque to the
dispatcher: a record of the `Layer` methods the dispatcher forwards to.
Decision methods return their answer alongside the possibly updated world;
lifecycle callbacks are world transformers. -/
structure Group (M C A E I R W : Type) where
  register_callsite : M → W → W × Interest
  enabled : M → C → W → W × Bool
  new_span : A → I → C → W → W
  on_record : I → R → C → W → W
  on_follows_from : I → I → C → W → W
  on_event : E → C → W → W
  on_enter : I → C → W → W
  on_exit : I → C → W → W
  on_close : I → C → W → W
  on_id_change : I → I → C → W → W

/-- `DispatchLayer<S>(Vec<Box<dyn Layer<S> + Send + Sync>>)`. -/
structure DispatchLayer (M C A E I R W : Type) where
  groups : List (Group M C A E I R W)

/-- `DispatchLayer::new`: the empty dispatcher. -/
def DispatchLayer.new : DispatchLayer M C A E I R W :=
  ⟨[]⟩

/-- `DispatchLayer::with` (renamed: `with` is a Lean keyword): `Vec::push`
appends the new member at the end. -/
def DispatchLayer.withGroup (d : DispatchLayer M C A E I R W)
    (g : Group M C A E I R W) : DispatchLayer M C A E I R W :=
  ⟨d.groups ++ [g]⟩

/-- `self.0.iter().map(|f| f.register_callsite(metadata)).fold(Interest::never(), ...)`:
Rust's `fold` over the lazy `map` queries each member left to right and feeds
the answer to `combine`; the recursion threads the world accordingly. -/
def registerAux (m : M) : List (Group M C A E I R W) → W → Interest → W × Interest
  | [], w, acc => (w, acc)
  | g :: gs, w, acc =>
      registerAux m gs (g.register_callsite m w).1
        (combine acc (g.register_callsite m w).2)

/-- `Layer::register_callsite` for `DispatchLayer` (lines 34-47). -/
def DispatchLayer.register_callsite (d : DispatchLayer M C A E I R W)
    (m : M) (w : W) : W × Interest :=
  registerAux m d.groups w Interest.never

/-- `self.0.iter().any(|f| f.enabled(metadata, ctx.clone()))`: Rust's
`Iterator::any` queries members left to right and stops at the first `true`;
each member receives `ctx.clone()`, i.e. the same pure handle `c`. -/
def enabledAux (m : M) (c : C) : List (Group M C A E I R W) → W → W × Bool
  | [], w => (w, false)
  | g :: gs, w =>
      if (g.enabled m c w).2 then ((g.enabled m c w).1, true)
      else enabledAux m c gs (g.enabled m c w).1

/-- `Layer::enabled` for `DispatchLayer` (lines 49-51). -/
def DispatchLayer.enabled (d : DispatchLayer M C A E I R W)
    (m : M) (c : C) (w : W) : W × Bool :=
  enabledAux m c d.groups w

/-- `Layer::new_span`: `self.0.iter().for_each(|inner| inner.new_span(attrs, id, ctx.clone()))`. -/
def DispatchLayer.new_span (d : DispatchLayer M C A E I R W)
    (a : A) (i : I) (c : C) (w : W) : W :=
  d.groups.foldl (fun w g => g.new_span a i c w) w

/-- `Layer::on_record`: broadcast in insertion order. -/
def DispatchLayer.on_record (d : DispatchLayer M C A E I R W)
    (i : I) (r : R) (c : C) (w : W) : W :=
  d.groups.foldl (fun w g => g.on_record i r c w) w

/-- `Layer::on_follows_from`: broadcast in insertion order. -/
def DispatchLayer.on_follows_from (d : DispatchLayer M C A E I R W)
    (i f : I) (c : C) (w : W) : W :=
  d.groups.foldl (fun w g => g.on_follows_from i f c w) w

/-- `Layer::on_event`: broadcast in insertion order. -/
def DispatchLayer.on_event (d : DispatchLayer M C A E I R W)
    (e : E) (c : C) (w : W) : W :=
  d.groups.foldl (fun w g => g.on_event e c w) w

/-- `Layer::on_enter`: broadcast in insertion order. -/
def DispatchLayer.on_enter (d : DispatchLayer M C A E I R W)
    (i : I) (c : C) (w : W) : W :=
  d.groups.foldl (fun w g => g.on_enter i c w) w

/-- `Layer::on_exit`: broadcast in insertion order. -/
def DispatchLayer.on_exit (d : DispatchLayer M C A E I R W)
    (i : I) (c : C) (w : W) : W :=
  d.groups.foldl (fun w g => g.on_exit i c w) w

/-- `Layer::on_close`: broadcast in insertion order; each member receives
`id.clone()` and `ctx.clone()`, i.e. the same pure values. -/
def DispatchLayer.on_close (d : DispatchLayer M C A E I R W)
    (i : I) (c : C) (w : W) : W :=
  d.groups.foldl (fun w g => g.on_close i c w) w

/-- `Layer::on_id_change`: broadcast in insertion order. -/
def DispatchLayer.on_id_change (d : DispatchLayer M C A E I R W)
    (o n : I) (c : C) (w : W) : W :=
  d.groups.foldl (fun w g => g.on_id_change o n c w) w

/-- `DispatchLayer` itself implements `Layer`, so a dispatcher can be pushed
into another dispatcher as a member group: this is that coercion. -/
def DispatchLayer.asGroup (d : DispatchLayer M C A E I R W) :
    Group M C A E I R W where
  register_callsite := fun m w => d.register_callsite m w
  enabled := fun m c w => d.enabled m c w
  new_span := fun a i c w => d.new_span a i c w
  on_record := fun i r c w => d.on_record i r c w
  on_follows_from := fun i f c w => d.on_follows_from i f c w
  on_event := fun e c w => d.on_event e c w
  on_enter := fun i c w => d.on_enter i c w
  on_exit := fun i c w => d.on_exit i c w
  on_close := fun i c w => d.on_close i c w
  on_id_change := fun o n c w => d.on_id_change o n c w

/-! ### Lattice facts about `combine` -/

/-- The fold step of `register_callsite` is exactly the maximum under
`never < sometimes < always`. -/
theorem combine_eq_max (a b : Interest) : combine a b = Interest.max a b := by
  cases a <;> cases b <;> rfl

theorem combine_never_left (b : Interest) : combine Interest.never b = b := by
  cases b <;> rfl

theorem combine_assoc (a b c : Interest) :
    combine (combine a b) c = combine a (combine b c) := by
  cases a <;> cases b <;> cases c <;> rfl

theorem combine_comm (a b : Interest) : combine a b = combine b a := by
  cases a <;> cases b <;> rfl

theorem combine_left_le (a b : Interest) :
    a.toNat ≤ (combine a b).toNat := by
  cases a <;> cases b <;> simp [combine, Interest.is_always, Interest.is_sometimes, Interest.toNat]

theorem max_never_left (b : Interest) : Interest.max Interest.never b = b := by
  cases b <;> rfl

theorem max_never_right (a : Interest) : Interest.max a Interest.never = a := by
  cases a <;> rfl

theorem max_assoc (a b c : Interest) :
    Interest.max (Interest.max a b) c = Interest.max a (Interest.max b c) := by
  cases a <;> cases b <;> cases c <;> rfl

/-- Folding `Interest.max` from an arbitrary accumulator. -/
theorem foldl_max_acc :
    ∀ (l : List Interest) (acc : Interest),
      l.foldl Interest.max acc = Interest.max acc (Interest.listMax l) := by
  intro l
  induction l with
  | nil => intro acc; exact (max_never_right acc).symm
  | cons a l ih =>
      intro acc
      have hcons : Interest.listMax (a :: l) = Interest.max a (Interest.listMax l) := by
        simp only [Interest.listMax, List.foldl_cons, max_never_left]
        exact ih a
      rw [List.foldl_cons, ih (Interest.max acc a), hcons, max_assoc]

theorem listMax_cons (a : Interest) (l : List Interest) :
    Interest.listMax (a :: l) = Interest.max a (Interest.listMax l) := by
  simp only [Interest.listMax, List.foldl_cons, max_never_left]
  exact foldl_max_acc l a

/-- `Interest.listMax` characterised the way the spec states the aggregate:
always if some element is always, otherwise sometimes if some element is
sometimes, otherwise never. -/
theorem listMax_char (l : List Interest) :
    Interest.listMax l =
      if Interest.always ∈ l then Interest.always
      else if Interest.sometimes ∈ l then Interest.sometimes
      else Interest.never := by
  induction l with
  | nil => rfl
  | cons a l ih =>
      rw [listMax_cons, ih]
      cases a <;> by_cases h1 : Interest.always ∈ l <;>
        by_cases h2 : Interest.sometimes ∈ l <;>
        simp only [List.mem_cons, h1, h2, or_true, or_false, if_true, if_false,
          reduceCtorEq, true_or, false_or, iff_true, iff_false] <;>
        rfl

/-! ### Unfolding lemmas for the dispatcher's folds -/

theorem registerAux_cons (m : M) (g : Group M C A E I R W)
    (gs : List (Group M C A E I R W)) (w : W) (acc : Interest) :
    registerAux m (g :: gs) w acc =
      registerAux m gs (g.register_callsite m w).1
        (combine acc (g.register_callsite m w).2) := rfl

/-- Running the fold from an arbitrary accumulator is the run from `never`
with the accumulator combined in afterwards. -/
theorem registerAux_acc (m : M) (gs : List (Group M C A E I R W)) :
    ∀ (w : W) (acc : Interest),
      registerAux m gs w acc =
        ((registerAux m gs w Interest.never).1,
          combine acc (registerAux m gs w Interest.never).2) := by
  induction gs with
  | nil =>
      intro w acc
      cases acc <;> rfl
  | cons g gs ih =>
      intro w acc
      rw [registerAux_cons, registerAux_cons,
        ih ((g.register_callsite m w).1) (combine acc (g.register_callsite m w).2),
        ih ((g.register_callsite m w).1) (combine Interest.never (g.register_callsite m w).2)]
      rw [combine_never_left, combine_assoc]

theorem registerAux_append (m : M) (xs ys : List (Group M C A E I R W)) :
    ∀ (w : W) (acc : Interest),
      registerAux m (xs ++ ys) w acc =
        registerAux m ys (registerAux m xs w acc).1 (registerAux m xs w acc).2 := by
  induction xs with
  | nil => intro w acc; rfl
  | cons g xs ih =>
      intro w acc
      simp only [List.cons_append, registerAux_cons, ih]

theorem enabledAux_cons (m : M) (c : C) (g : Group M C A E I R W)
    (gs : List (Group M C A E I R W)) (w : W) :
    enabledAux m c (g :: gs) w =
      if (g.enabled m c w).2 then ((g.enabled m c w).1, true)
      else enabledAux m c gs (g.enabled m c w).1 := rfl

theorem enabledAux_append (m : M) (c : C) (xs ys : List (Group M C A E I R W)) :
    ∀ w : W,
      enabledAux m c (xs ++ ys) w =
        if (enabledAux m c xs w).2 then enabledAux m c xs w
        else enabledAux m c ys (enabledAux m c xs w).1 := by
  induction xs with
  | nil => intro w; rfl
  | cons g xs ih =>
      intro w
      by_cases h : (g.enabled m c w).2 <;>
        simp [List.cons_append, enabledAux_cons, h, ih]

/-- Fold of `combine` from `never` over a list of answers is the maximum. -/
theorem foldl_combine_eq_listMax :
    ∀ (l : List Interest) (acc : Interest),
      l.foldl combine acc = l.foldl Interest.max acc := by
  intro l
  induction l with
  | nil => intro acc; rfl
  | cons a l ih =>
      intro acc
      simp only [List.foldl_cons, combine_eq_max, ih]

/-- When every member's interest answer is independent of the world it is
queried in, the dispatcher's fold computes the pure fold of `combine` over
the members' answers (all evaluated at a fixed world `w0`). -/
theorem registerAux_pure (m : M) (w0 : W) :
    ∀ (gs : List (Group M C A E I R W)),
      (∀ g ∈ gs, ∀ w1 w2 : W,
          (g.register_callsite m w1).2 = (g.register_callsite m w2).2) →
      ∀ (w : W) (acc : Interest),
        (registerAux m gs w acc).2 =
          (gs.map (fun g => (g.register_callsite m w0).2)).foldl combine acc := by
  intro gs
  induction gs with
  | nil => intro _ w acc; rfl
  | cons g gs ih =>
      intro hr w acc
      rw [registerAux_cons, List.map_cons, List.foldl_cons,
        hr g (List.mem_cons_self g gs) w w0]
      exact ih (fun g' hg' => hr g' (List.mem_cons_of_mem g hg')) _ _

/-- When every member's enablement answer is independent of the world it is
queried in, the short-circuiting scan computes the boolean `any` of the
members' answers (all evaluated at a fixed world `w0`). -/
theorem enabledAux_pure (m : M) (c : C) (w0 : W) :
    ∀ (gs : List (Group M C A E I R W)),
      (∀ g ∈ gs, ∀ w1 w2 : W, (g.enabled m c w1).2 = (g.enabled m c w2).2) →
      ∀ w : W,
        (enabledAux m c gs w).2 = gs.any (fun g => (g.enabled m c w0).2) := by
  intro gs
  induction gs with
  | nil => intro _ w; rfl
  | cons g gs ih =>
      intro he w
      rw [enabledAux_cons, List.any_cons]
      by_cases h : (g.enabled m c w).2
      · simp [h, ← he g (List.mem_cons_self g gs) w w0]
      · have h0 : (g.enabled m c w0).2 = false := by
          rw [← he g (List.mem_cons_self g gs) w w0]
          exact Bool.eq_false_iff.mpr h
        simp only [h0, Bool.false_or, if_neg h]
        exact ih (fun g' hg' => he g' (List.mem_cons_of_mem g hg')) _

/-! ### Claims -/

/-- C1: for every finite sequence of member groups (whose interest answers
are well defined, i.e. independent of the side-effect world) and every
callsite metadata, `DispatchLayer.register_callsite` returns the maximum of
the members' individual interest levels under `never < sometimes < always`:
always if some member answers always, otherwise sometimes if some member
answers sometimes, otherwise never. -/
theorem register_callsite_is_max (d : DispatchLayer M C A E I R W)
    (m : M) (w : W)
    (hr : ∀ g ∈ d.groups, ∀ w1 w2 : W,
        (g.register_callsite m w1).2 = (g.register_callsite m w2).2) :
    (d.register_callsite m w).2 =
        Interest.listMax (d.groups.map (fun g => (g.register_callsite m w).2)) ∧
      (d.register_callsite m w).2 =
        (if Interest.always ∈ d.groups.map (fun g => (g.register_callsite m w).2)
          then Interest.always
          else if Interest.sometimes ∈
              d.groups.map (fun g => (g.register_callsite m w).2)
            then Interest.sometimes
            else Interest.never) := by
  have h1 : (d.register_callsite m w).2 =
      Interest.listMax (d.groups.map (fun g => (g.register_callsite m w).2)) := by
    rw [DispatchLayer.register_callsite, registerAux_pure m w d.groups hr w Interest.never,
      foldl_combine_eq_listMax]
    rfl
  exact ⟨h1, h1.trans (listMax_char _)⟩

/-- Harness group with constant answers and inert callbacks, used to
instantiate hypothesis-bearing theorems at concrete inputs. -/
def constGroup (i : Interest) (b : Bool) :
    Group Unit Unit Unit Unit Unit Unit Unit where
  register_callsite := fun _ w => (w, i)
  enabled := fun _ _ w => (w, b)
  new_span := fun _ _ _ w => w
  on_record := fun _ _ _ w => w
  on_follows_from := fun _ _ _ w => w
  on_event := fun _ _ w => w
  on_enter := fun _ _ w => w
  on_exit := fun _ _ w => w
  on_close := fun _ _ w => w
  on_id_change := fun _ _ _ w => w

/-- Witness for C1 at the spec's own concrete scenario
(§8: groups `[sometimes, never]` aggregate to `sometimes`). -/
theorem register_callsite_is_max_witness :
    (∀ g ∈ (⟨[constGroup Interest.sometimes false, constGroup Interest.never true]⟩ :
          DispatchLayer Unit Unit Unit Unit Unit Unit Unit).groups,
        ∀ w1 w2 : Unit, (g.register_callsite () w1).2 = (g.register_callsite () w2).2) ∧
      (((⟨[constGroup Interest.sometimes false, constGroup Interest.never true]⟩ :
          DispatchLayer Unit Unit Unit Unit Unit Unit Unit).register_callsite () ()).2 =
          Interest.listMax
            ((⟨[constGroup Interest.sometimes false, constGroup Interest.never true]⟩ :
              DispatchLayer Unit Unit Unit Unit Unit Unit Unit).groups.map
              (fun g => (g.register_callsite () ()).2)) ∧
        ((⟨[constGroup Interest.sometimes false, constGroup Interest.never true]⟩ :
          DispatchLayer Unit Unit Unit Unit Unit Unit Unit).register_callsite () ()).2 =
          (if Interest.always ∈
              (⟨[constGroup Interest.sometimes false, constGroup Interest.never true]⟩ :
                DispatchLayer Unit Unit Unit Unit Unit Unit Unit).groups.map
                (fun g => (g.register_callsite () ()).2)
            then Interest.always
            else if Interest.sometimes ∈
                (⟨[constGroup Interest.sometimes false, constGroup Interest.never true]⟩ :
                  DispatchLayer Unit Unit Unit Unit Unit Unit Unit).groups.map
                  (fun g => (g.register_callsite () ()).2)
              then Interest.sometimes
              else Interest.never)) :=
  ⟨fun _ _ _ _ => rfl,
    register_callsite_is_max _ () () (fun _ _ _ _ => rfl)⟩

/-- C2: for every finite sequence of member groups (with well-defined,
world-independent enablement answers), every metadata and every context,
`DispatchLayer.enabled` answers true exactly when at least one member's
`enabled` answers true. -/
theorem enabled_is_or (d : DispatchLayer M C A E I R W)
    (m : M) (c : C) (w : W)
    (he : ∀ g ∈ d.groups, ∀ w1 w2 : W,
        (g.enabled m c w1).2 = (g.enabled m c w2).2) :
    (d.enabled m c w).2 = true ↔ ∃ g ∈ d.groups, (g.enabled m c w).2 = true := by
  rw [DispatchLayer.enabled, enabledAux_pure m c w d.groups he w, List.any_eq_true]

/-- Witness for C2 at the spec's §8 scenario: member answers
`[false, true]` aggregate to true. -/
theorem enabled_is_or_witness :
    (∀ g ∈ (⟨[constGroup Interest.sometimes false, constGroup Interest.never true]⟩ :
          DispatchLayer Unit Unit Unit Unit Unit Unit Unit).groups,
        ∀ w1 w2 : Unit, (g.enabled () () w1).2 = (g.enabled () () w2).2) ∧
      (((⟨[constGroup Interest.sometimes false, constGroup Interest.never true]⟩ :
          DispatchLayer Unit Unit Unit Unit Unit Unit Unit).enabled () () ()).2 = true ↔
        ∃ g ∈ (⟨[constGroup Interest.sometimes false, constGroup Interest.never true]⟩ :
            DispatchLayer Unit Unit Unit Unit Unit Unit Unit).groups,
          (g.enabled () () ()).2 = true) :=
  ⟨fun _ _ _ _ => rfl, enabled_is_or _ () () () (fun _ _ _ _ => rfl)⟩

/-- C3: the empty dispatcher built by `new()` answers `never` to every
interest query and `false` to every enablement query (and leaves the world
untouched). -/
theorem new_dispatcher_never_false (m : M) (c : C) (w : W) :
    (DispatchLayer.new : DispatchLayer M C A E I R W).register_callsite m w =
        (w, Interest.never) ∧
      (DispatchLayer.new : DispatchLayer M C A E I R W).enabled m c w = (w, false) :=
  ⟨rfl, rfl⟩

/-- C6: appending a member group with `with` can only raise or preserve the
aggregated interest level, never lower it, for any dispatcher, any appended
group (even one with side effects), any metadata and any world. -/
theorem with_monotone (d : DispatchLayer M C A E I R W)
    (g : Group M C A E I R W) (m : M) (w : W) :
    ((d.register_callsite m w).2).toNat ≤
      (((d.withGroup g).register_callsite m w).2).toNat := by
  rw [DispatchLayer.withGroup, DispatchLayer.register_callsite]
  show _ ≤ ((registerAux m (d.groups ++ [g]) w Interest.never).2).toNat
  rw [registerAux_append]
  exact combine_left_le _ _

theorem combine_right_comm (a b c : Interest) :
    combine (combine a b) c = combine (combine a c) b := by
  cases a <;> cases b <;> cases c <;> rfl

/-- The fold of `combine` is invariant under permutation of the answers. -/
theorem foldl_combine_perm {l1 l2 : List Interest} (p : l1.Perm l2) :
    ∀ acc : Interest, l1.foldl combine acc = l2.foldl combine acc := by
  induction p with
  | nil => intro acc; rfl
  | cons a _ ih => intro acc; simp only [List.foldl_cons, ih]
  | swap a b l =>
      intro acc
      simp only [List.foldl_cons, combine_right_comm]
  | trans _ _ ih1 ih2 => intro acc; rw [ih1, ih2]

/-- C4: the two aggregated decisions are order-independent.  For dispatchers
whose member lists are permutations of one another (members with well-defined
world-independent answers), `register_callsite` returns the same interest
level and `enabled` the same boolean: the fold step is commutative and
associative, so insertion order never affects an aggregated decision. -/
theorem decisions_order_independent (d d' : DispatchLayer M C A E I R W)
    (m : M) (c : C) (w : W)
    (hperm : d.groups.Perm d'.groups)
    (hr : ∀ g ∈ d.groups, ∀ w1 w2 : W,
        (g.register_callsite m w1).2 = (g.register_callsite m w2).2)
    (he : ∀ g ∈ d.groups, ∀ w1 w2 : W,
        (g.enabled m c w1).2 = (g.enabled m c w2).2) :
    (d.register_callsite m w).2 = (d'.register_callsite m w).2 ∧
      (d.enabled m c w).2 = (d'.enabled m c w).2 := by
  have hr' : ∀ g ∈ d'.groups, ∀ w1 w2 : W,
      (g.register_callsite m w1).2 = (g.register_callsite m w2).2 :=
    fun g hg => hr g (hperm.mem_iff.mpr hg)
  have he' : ∀ g ∈ d'.groups, ∀ w1 w2 : W,
      (g.enabled m c w1).2 = (g.enabled m c w2).2 :=
    fun g hg => he g (hperm.mem_iff.mpr hg)
  constructor
  · rw [DispatchLayer.register_callsite, DispatchLayer.register_callsite,
      registerAux_pure m w d.groups hr w Interest.never,
      registerAux_pure m w d'.groups hr' w Interest.never]
    exact foldl_combine_perm (hperm.map _) Interest.never
  · rw [DispatchLayer.enabled, DispatchLayer.enabled,
      enabledAux_pure m c w d.groups he w,
      enabledAux_pure m c w d'.groups he' w]
    by_cases h : d.groups.any (fun g => (g.enabled m c w).2) = true
    · rw [h]
      symm
      rw [List.any_eq_true] at h ⊢
      obtain ⟨g, hg, hfg⟩ := h
      exact ⟨g, hperm.mem_iff.mp hg, hfg⟩
    · have h' : ¬d'.groups.any (fun g => (g.enabled m c w).2) = true := by
        intro hc
        apply h
        rw [List.any_eq_true] at hc ⊢
        obtain ⟨g, hg, hfg⟩ := hc
        exact ⟨g, hperm.mem_iff.mpr hg, hfg⟩
      rw [Bool.not_eq_true] at h h'
      rw [h, h']

/-- Witness for C4: swapping the two members of the §8 scenario changes
neither aggregated decision. -/
theorem decisions_order_independent_witness :
    ((⟨[constGroup Interest.sometimes false, constGroup Interest.never true]⟩ :
        DispatchLayer Unit Unit Unit Unit Unit Unit Unit).groups.Perm
      (⟨[constGroup Interest.never true, constGroup Interest.sometimes false]⟩ :
        DispatchLayer Unit Unit Unit Unit Unit Unit Unit).groups) ∧
      (((⟨[constGroup Interest.sometimes false, constGroup Interest.never true]⟩ :
          DispatchLayer Unit Unit Unit Unit Unit Unit Unit).register_callsite () ()).2 =
        ((⟨[constGroup Interest.never true, constGroup Interest.sometimes false]⟩ :
          DispatchLayer Unit Unit Unit Unit Unit Unit Unit).register_callsite () ()).2 ∧
      ((⟨[constGroup Interest.sometimes false, constGroup Interest.never true]⟩ :
          DispatchLayer Unit Unit Unit Unit Unit Unit Unit).enabled () () ()).2 =
        ((⟨[constGroup Interest.never true, constGroup Interest.sometimes false]⟩ :
          DispatchLayer Unit Unit Unit Unit Unit Unit Unit).enabled () () ()).2) :=
  ⟨List.Perm.swap _ _ _,
    decisions_order_independent _ _ () () () (List.Perm.swap _ _ _)
      (fun _ _ _ _ => rfl) (fun _ _ _ _ => rfl)⟩

/-- C7: flatten-equivalence of nesting.  A dispatcher `inner` pushed as a
member group (via `asGroup`, i.e. the `Layer` implementation of
`DispatchLayer`) between members `pre` and `post` of an outer dispatcher
behaves identically — same world evolution and same decision — to the
flattened dispatcher holding `pre ++ inner.groups ++ post`, for the interest
query, the enablement query and all eight lifecycle broadcasts.  As the world
`W` and the member callbacks are universally quantified, agreement of the
final worlds entails agreement of the broadcast invocation order over leaf
groups (instantiate `W` with a log and callbacks with loggers). -/
theorem nested_dispatcher_flattens (pre post : List (Group M C A E I R W))
    (inner : DispatchLayer M C A E I R W)
    (m : M) (c : C) (a : A) (e : E) (i f o n : I) (r : R) (w : W) :
    (DispatchLayer.register_callsite ⟨pre ++ [inner.asGroup] ++ post⟩ m w =
        DispatchLayer.register_callsite ⟨pre ++ inner.groups ++ post⟩ m w) ∧
      (DispatchLayer.enabled ⟨pre ++ [inner.asGroup] ++ post⟩ m c w =
        DispatchLayer.enabled ⟨pre ++ inner.groups ++ post⟩ m c w) ∧
      (DispatchLayer.new_span ⟨pre ++ [inner.asGroup] ++ post⟩ a i c w =
        DispatchLayer.new_span ⟨pre ++ inner.groups ++ post⟩ a i c w) ∧
      (DispatchLayer.on_record ⟨pre ++ [inner.asGroup] ++ post⟩ i r c w =
        DispatchLayer.on_record ⟨pre ++ inner.groups ++ post⟩ i r c w) ∧
      (DispatchLayer.on_follows_from ⟨pre ++ [inner.asGroup] ++ post⟩ i f c w =
        DispatchLayer.on_follows_from ⟨pre ++ inner.groups ++ post⟩ i f c w) ∧
      (DispatchLayer.on_event ⟨pre ++ [inner.asGroup] ++ post⟩ e c w =
        DispatchLayer.on_event ⟨pre ++ inner.groups ++ post⟩ e c w) ∧
      (DispatchLayer.on_enter ⟨pre ++ [inner.asGroup] ++ post⟩ i c w =
        DispatchLayer.on_enter ⟨pre ++ inner.groups ++ post⟩ i c w) ∧
      (DispatchLayer.on_exit ⟨pre ++ [inner.asGroup] ++ post⟩ i c w =
        DispatchLayer.on_exit ⟨pre ++ inner.groups ++ post⟩ i c w) ∧
      (DispatchLayer.on_close ⟨pre ++ [inner.asGroup] ++ post⟩ i c w =
        DispatchLayer.on_close ⟨pre ++ inner.groups ++ post⟩ i c w) ∧
      (DispatchLayer.on_id_change ⟨pre ++ [inner.asGroup] ++ post⟩ o n c w =
        DispatchLayer.on_id_change ⟨pre ++ inner.groups ++ post⟩ o n c w) := by
  refine ⟨?_, ?_, ?_, ?_, ?_, ?_, ?_, ?_, ?_, ?_⟩
  · -- interest: splice the inner fold into the outer one using
    -- `registerAux_append` and the accumulator law `registerAux_acc`.
    show registerAux m (pre ++ [inner.asGroup] ++ post) w Interest.never =
      registerAux m (pre ++ inner.groups ++ post) w Interest.never
    rw [registerAux_append, registerAux_append, registerAux_append, registerAux_append]
    have hmid : ∀ (w1 : W) (acc : Interest),
        registerAux m [inner.asGroup] w1 acc = registerAux m inner.groups w1 acc := by
      intro w1 acc
      rw [registerAux_acc m inner.groups w1 acc]
      rfl
    rw [hmid]
  · show enabledAux m c (pre ++ [inner.asGroup] ++ post) w =
      enabledAux m c (pre ++ inner.groups ++ post) w
    rw [enabledAux_append, enabledAux_append, enabledAux_append, enabledAux_append]
    have hmid : ∀ w1 : W,
        enabledAux m c [inner.asGroup] w1 = enabledAux m c inner.groups w1 := by
      intro w1
      show (if (enabledAux m c inner.groups w1).2
          then ((enabledAux m c inner.groups w1).1, true)
          else ((enabledAux m c inner.groups w1).1, false)) =
        enabledAux m c inner.groups w1
      by_cases h : (enabledAux m c inner.groups w1).2
      · rw [if_pos h, ← h]
      · rw [if_neg h, ← Bool.eq_false_iff.mpr h]
    rw [hmid]
  all_goals
    simp only [DispatchLayer.new_span, DispatchLayer.on_record,
      DispatchLayer.on_follows_from, DispatchLayer.on_event, DispatchLayer.on_enter,
      DispatchLayer.on_exit, DispatchLayer.on_close, DispatchLayer.on_id_change,
      List.foldl_append, List.foldl_cons, List.foldl_nil, DispatchLayer.asGroup]

/-! ### Instrumentation: observing which member methods the dispatcher calls

To state the claims about invocation traces we wrap each member layer so that
every method call is appended to a log carried in the world, exactly as a
test harness would.  `instr k g` behaves as `g` on the underlying world and
additionally records `(k, call)` for each method invocation. -/

/-- One recorded call to a member layer's method, with the arguments the
dispatcher passed. -/
inductive Call (M C A E I R : Type) where
  | register_cs (m : M)
  | enabled_check (m : M) (c : C)
  | new_span (a : A) (i : I) (c : C)
  | on_record (i : I) (r : R) (c : C)
  | on_follows_from (i : I) (f : I) (c : C)
  | on_event (e : E) (c : C)
  | on_enter (i : I) (c : C)
  | on_exit (i : I) (c : C)
  | on_close (i : I) (c : C)
  | on_id_change (o : I) (n : I) (c : C)
deriving DecidableEq

/-- Wrap member `g` (to be stored at position `k`) so that every method call
is logged together with its arguments. -/
def instr (k : Nat) (g : Group M C A E I R W) :
    Group M C A E I R (W × List (Nat × Call M C A E I R)) where
  register_callsite := fun m wl =>
    (((g.register_callsite m wl.1).1, wl.2 ++ [(k, Call.register_cs m)]),
      (g.register_callsite m wl.1).2)
  enabled := fun m c wl =>
    (((g.enabled m c wl.1).1, wl.2 ++ [(k, Call.enabled_check m c)]),
      (g.enabled m c wl.1).2)
  new_span := fun a i c wl =>
    (g.new_span a i c wl.1, wl.2 ++ [(k, Call.new_span a i c)])
  on_record := fun i r c wl =>
    (g.on_record i r c wl.1, wl.2 ++ [(k, Call.on_record i r c)])
  on_follows_from := fun i f c wl =>
    (g.on_follows_from i f c wl.1, wl.2 ++ [(k, Call.on_follows_from i f c)])
  on_event := fun e c wl =>
    (g.on_event e c wl.1, wl.2 ++ [(k, Call.on_event e c)])
  on_enter := fun i c wl =>
    (g.on_enter i c wl.1, wl.2 ++ [(k, Call.on_enter i c)])
  on_exit := fun i c wl =>
    (g.on_exit i c wl.1, wl.2 ++ [(k, Call.on_exit i c)])
  on_close := fun i c wl =>
    (g.on_close i c wl.1, wl.2 ++ [(k, Call.on_close i c)])
  on_id_change := fun o n c wl =>
    (g.on_id_change o n c wl.1, wl.2 ++ [(k, Call.on_id_change o n c)])

/-- Instrument a member list, numbering the members from `k`. -/
def instrGroups :
    Nat → List (Group M C A E I R W) →
      List (Group M C A E I R (W × List (Nat × Call M C A E I R)))
  | _, [] => []
  | k, g :: gs => instr k g :: instrGroups (k + 1) gs

/-- The dispatcher over the instrumented members: same structure, every
member call logged. -/
def DispatchLayer.instrumented (d : DispatchLayer M C A E I R W) :
    DispatchLayer M C A E I R (W × List (Nat × Call M C A E I R)) :=
  ⟨instrGroups 0 d.groups⟩

/-- Generic broadcast lemma: folding an instrumented member list applies the
underlying callbacks to the underlying world and appends one log entry per
member, numbered consecutively. -/
theorem instr_foldl
    (app : Group M C A E I R (W × List (Nat × Call M C A E I R)) →
      W × List (Nat × Call M C A E I R) → W × List (Nat × Call M C A E I R))
    (step : Group M C A E I R W → W → W) (e : Call M C A E I R)
    (happ : ∀ (k : Nat) (g : Group M C A E I R W)
        (wl : W × List (Nat × Call M C A E I R)),
      app (instr k g) wl = (step g wl.1, wl.2 ++ [(k, e)])) :
    ∀ (gs : List (Group M C A E I R W)) (k : Nat) (w : W)
      (l : List (Nat × Call M C A E I R)),
      (instrGroups k gs).foldl (fun wl g' => app g' wl) (w, l) =
        (gs.foldl (fun w g => step g w) w,
          l ++ (List.range' k gs.length).map (fun j => (j, e))) := by
  intro gs
  induction gs with
  | nil => intro k w l; simp [instrGroups]
  | cons g gs ih =>
      intro k w l
      simp only [instrGroups, List.foldl_cons, happ, ih, List.length_cons,
        List.range'_succ, List.map_cons, List.append_assoc, List.singleton_append]

/-- C5: every lifecycle broadcast invokes every member exactly once, in
insertion order, with the same arguments and the same (per-member cloned)
context handle: the instrumented run of each of the eight lifecycle methods
produces the log `[(0, call), (1, call), ..., (n-1, call)]` with the one
`call` holding exactly the broadcast's arguments, while the underlying world
evolves as in the uninstrumented run. -/
theorem broadcasts_once_in_order (d : DispatchLayer M C A E I R W)
    (a : A) (e : E) (i f o n : I) (r : R) (c : C) (w : W) :
    (d.instrumented.new_span a i c (w, []) =
        (d.new_span a i c w,
          (List.range d.groups.length).map (fun j => (j, Call.new_span a i c)))) ∧
      (d.instrumented.on_record i r c (w, []) =
        (d.on_record i r c w,
          (List.range d.groups.length).map (fun j => (j, Call.on_record i r c)))) ∧
      (d.instrumented.on_follows_from i f c (w, []) =
        (d.on_follows_from i f c w,
          (List.range d.groups.length).map (fun j => (j, Call.on_follows_from i f c)))) ∧
      (d.instrumented.on_event e c (w, []) =
        (d.on_event e c w,
          (List.range d.groups.length).map (fun j => (j, Call.on_event e c)))) ∧
      (d.instrumented.on_enter i c (w, []) =
        (d.on_enter i c w,
          (List.range d.groups.length).map (fun j => (j, Call.on_enter i c)))) ∧
      (d.instrumented.on_exit i c (w, []) =
        (d.on_exit i c w,
          (List.range d.groups.length).map (fun j => (j, Call.on_exit i c)))) ∧
      (d.instrumented.on_close i c (w, []) =
        (d.on_close i c w,
          (List.range d.groups.length).map (fun j => (j, Call.on_close i c)))) ∧
      (d.instrumented.on_id_change o n c (w, []) =
        (d.on_id_change o n c w,
          (List.range d.groups.length).map (fun j => (j, Call.on_id_change o n c)))) := by
  refine ⟨?_, ?_, ?_, ?_, ?_, ?_, ?_, ?_⟩
  · simpa [DispatchLayer.instrumented, DispatchLayer.new_span, List.range_eq_range'] using
      instr_foldl (fun g' wl => g'.new_span a i c wl) (fun g w => g.new_span a i c w)
        (Call.new_span a i c) (fun _ _ _ => rfl) d.groups 0 w []
  · simpa [DispatchLayer.instrumented, DispatchLayer.on_record, List.range_eq_range'] using
      instr_foldl (fun g' wl => g'.on_record i r c wl) (fun g w => g.on_record i r c w)
        (Call.on_record i r c) (fun _ _ _ => rfl) d.groups 0 w []
  · simpa [DispatchLayer.instrumented, DispatchLayer.on_follows_from,
      List.range_eq_range'] using
      instr_foldl (fun g' wl => g'.on_follows_from i f c wl)
        (fun g w => g.on_follows_from i f c w)
        (Call.on_follows_from i f c) (fun _ _ _ => rfl) d.groups 0 w []
  · simpa [DispatchLayer.instrumented, DispatchLayer.on_event, List.range_eq_range'] using
      instr_foldl (fun g' wl => g'.on_event e c wl) (fun g w => g.on_event e c w)
        (Call.on_event e c) (fun _ _ _ => rfl) d.groups 0 w []
  · simpa [DispatchLayer.instrumented, DispatchLayer.on_enter, List.range_eq_range'] using
      instr_foldl (fun g' wl => g'.on_enter i c wl) (fun g w => g.on_enter i c w)
        (Call.on_enter i c) (fun _ _ _ => rfl) d.groups 0 w []
  · simpa [DispatchLayer.instrumented, DispatchLayer.on_exit, List.range_eq_range'] using
      instr_foldl (fun g' wl => g'.on_exit i c wl) (fun g w => g.on_exit i c w)
        (Call.on_exit i c) (fun _ _ _ => rfl) d.groups 0 w []
  · simpa [DispatchLayer.instrumented, DispatchLayer.on_close, List.range_eq_range'] using
      instr_foldl (fun g' wl => g'.on_close i c wl) (fun g w => g.on_close i c w)
        (Call.on_close i c) (fun _ _ _ => rfl) d.groups 0 w []
  · simpa [DispatchLayer.instrumented, DispatchLayer.on_id_change,
      List.range_eq_range'] using
      instr_foldl (fun g' wl => g'.on_id_change o n c wl) (fun g w => g.on_id_change o n c w)
        (Call.on_id_change o n c) (fun _ _ _ => rfl) d.groups 0 w []

/-- The interest fold over an instrumented member list queries every member,
in order, threading the underlying worlds and accumulator as in the
uninstrumented run. -/
theorem registerAux_instr (m : M) :
    ∀ (gs : List (Group M C A E I R W)) (k : Nat) (w : W)
      (l : List (Nat × Call M C A E I R)) (acc : Interest),
      registerAux m (instrGroups k gs) (w, l) acc =
        (((registerAux m gs w acc).1,
          l ++ (List.range' k gs.length).map (fun j => (j, Call.register_cs m))),
          (registerAux m gs w acc).2) := by
  intro gs
  induction gs with
  | nil => intro k w l acc; simp [instrGroups, registerAux]
  | cons g gs ih =>
      intro k w l acc
      simp only [instrGroups, registerAux_cons, instr, ih, List.length_cons,
        List.range'_succ, List.map_cons, List.append_assoc, List.singleton_append]

/-- C10: unlike `enabled`, `register_callsite` never short-circuits: the
dispatcher queries every member's `register_callsite` exactly once, in
insertion order — even when an earlier member (universally quantified here,
so in particular one answering always) has already reported always.  The
instrumented run logs `[(0, q), ..., (n-1, q)]` with `q` the interest query
for the given metadata. -/
theorem register_callsite_queries_all (d : DispatchLayer M C A E I R W)
    (m : M) (w : W) :
    d.instrumented.register_callsite m (w, []) =
      (((d.register_callsite m w).1,
        (List.range d.groups.length).map (fun j => (j, Call.register_cs m))),
        (d.register_callsite m w).2) := by
  simpa [DispatchLayer.instrumented, DispatchLayer.register_callsite,
    List.range_eq_range'] using
    registerAux_instr m d.groups 0 w [] Interest.never

/-- Number of members Rust's short-circuiting `Iterator::any` actually
queries, given the members' answers: the scan stops right after the first
`true`, otherwise it exhausts the list. -/
def scLen : List Bool → Nat
  | [] => 0
  | b :: bs => if b then 1 else scLen bs + 1

/-- `i < scLen bs` says exactly: `i` is a position in the list and every
answer strictly before `i` is `false`. -/
theorem lt_scLen_iff :
    ∀ (bs : List Bool) (i : Nat),
      i < scLen bs ↔ i < bs.length ∧ ∀ b ∈ bs.take i, b = false := by
  intro bs
  induction bs with
  | nil => intro i; simp [scLen]
  | cons b bs ih =>
      intro i
      cases i with
      | zero =>
          simp only [List.take_zero, List.not_mem_nil, false_implies, implies_true,
            and_true, List.length_cons, scLen]
          constructor
          · intro _; exact Nat.succ_pos _
          · intro _
            by_cases hb : b <;> simp [hb, Nat.succ_pos]
      | succ i =>
          by_cases hb : b
          · simp [scLen, hb, List.take_succ_cons, Nat.succ_lt_succ_iff]
          · simp only [scLen, if_neg hb, Nat.succ_lt_succ_iff, ih i,
              List.length_cons, List.take_succ_cons, List.mem_cons]
            constructor
            · rintro ⟨h1, h2⟩
              refine ⟨h1, fun x hx => ?_⟩
              rcases hx with rfl | hx
              · exact Bool.eq_false_iff.mpr hb
              · exact h2 x hx
            · rintro ⟨h1, h2⟩
              exact ⟨h1, fun x hx => h2 x (Or.inr hx)⟩

/-- The enablement scan over an instrumented member list whose answers are
the booleans `ps` (independent of the world) logs exactly the first
`scLen ps` member indices. -/
theorem enabledAux_instr (m : M) (c : C) :
    ∀ {gs : List (Group M C A E I R W)} {ps : List Bool},
      List.Forall₂ (fun g p => ∀ w' : W, (g.enabled m c w').2 = p) gs ps →
      ∀ (k : Nat) (w : W) (l : List (Nat × Call M C A E I R)),
        (enabledAux m c (instrGroups k gs) (w, l)).1.2 =
          l ++ (List.range' k (scLen ps)).map (fun j => (j, Call.enabled_check m c)) := by
  intro gs ps h
  induction h with
  | nil => intro k w l; simp [instrGroups, enabledAux, scLen]
  | @cons g p gs ps hgp _ ih =>
      intro k w l
      rw [instrGroups, enabledAux_cons]
      have hval : ((instr k g).enabled m c (w, l)).2 = p := hgp w
      cases hp : p with
      | true =>
          rw [hp] at hval
          rw [if_pos hval]
          simp [instr, scLen, hp, List.range'_succ, hgp w]
      | false =>
          rw [hp] at hval
          rw [if_neg (by rw [hval]; exact Bool.false_ne_true)]
          have : ((instr k g).enabled m c (w, l)).1 =
              ((g.enabled m c w).1, l ++ [(k, Call.enabled_check m c)]) := rfl
          rw [this, ih]
          simp [scLen, hp, List.range'_succ, List.append_assoc]

/-- C9: the dispatcher's `enabled` short-circuits.  For members whose
enablement answers are the booleans `ps`, member `i`'s check is invoked
(appears in the instrumented log) exactly when `i` is a member position and
every member before `i` in insertion order answered `false`; in particular,
once some member answers `true`, no later member is queried. -/
theorem enabled_short_circuits (d : DispatchLayer M C A E I R W)
    (ps : List Bool) (m : M) (c : C) (w : W) (i : Nat)
    (h : List.Forall₂ (fun g p => ∀ w' : W, (g.enabled m c w').2 = p) d.groups ps) :
    (i, Call.enabled_check m c) ∈ (d.instrumented.enabled m c (w, [])).1.2 ↔
      i < ps.length ∧ ∀ b ∈ ps.take i, b = false := by
  rw [← lt_scLen_iff]
  show (i, Call.enabled_check m c) ∈ (enabledAux m c (instrGroups 0 d.groups) (w, [])).1.2 ↔ _
  rw [enabledAux_instr m c h 0 w []]
  simp [List.mem_range', Nat.lt_irrefl]

/-- Witness for C9: members answering `[false, true, false]` — the third
member (index 2) is not queried because the second already answered true. -/
theorem enabled_short_circuits_witness :
    List.Forall₂ (fun (g : Group Unit Unit Unit Unit Unit Unit Unit) (p : Bool) =>
        ∀ w' : Unit, (g.enabled () () w').2 = p)
      (⟨[constGroup Interest.never false, constGroup Interest.never true,
          constGroup Interest.never false]⟩ :
        DispatchLayer Unit Unit Unit Unit Unit Unit Unit).groups
      [false, true, false] ∧
    ((2, Call.enabled_check () ()) ∈
        ((⟨[constGroup Interest.never false, constGroup Interest.never true,
            constGroup Interest.never false]⟩ :
          DispatchLayer Unit Unit Unit Unit Unit Unit Unit).instrumented.enabled
            () () ((), [])).1.2 ↔
      2 < [false, true, false].length ∧
        ∀ b ∈ [false, true, false].take 2, b = false) := by
  have hF : List.Forall₂ (fun (g : Group Unit Unit Unit Unit Unit Unit Unit) (p : Bool) =>
      ∀ w' : Unit, (g.enabled () () w').2 = p)
      (⟨[constGroup Interest.never false, constGroup Interest.never true,
          constGroup Interest.never false]⟩ :
        DispatchLayer Unit Unit Unit Unit Unit Unit Unit).groups
      [false, true, false] := by
    refine List.Forall₂.cons ?_ (List.Forall₂.cons ?_
      (List.Forall₂.cons ?_ List.Forall₂.nil)) <;> intro w' <;> rfl
  exact ⟨hF, enabled_short_circuits _ [false, true, false] () () () 2 hF⟩

end TracingDispatch
